import Mathlib

/-!
Verification development for the qfputs buffered line writer.

The model is a shallow embedding of the two components:

* `Fputs` — the buffered write queue (index.js): `fputs`, `write`, the
  `_sync` drain loop, `fflush`, `drain`, error latching.  JS strings are
  modelled as lists of character codes (`List Nat`); `Buffer`s as lists of
  bytes (`List Nat`).  The byte encoding of a string (`Buffer.from(str)`)
  is an explicit parameter `enc : Nat → List Nat` mapping each character
  to its encoded bytes, so all theorems hold for every encoding.
  The counters `unwrittenLength`/`writtenLength` are JS numbers and are
  modelled as `Int`.

* `FileWriter` — the locked file appender (lib/filewriter.js): open-mode
  downgrade on reopen, the scratch write buffer, and `renameFile` over an
  association-list filesystem model.

The asynchronous drain loop is modelled as a small-step event system
(`Sys`/`Ev`/`step`): a `write`/`puts` event is a public API call, a
`syncFire` event is a scheduled `_sync` timer firing, and a `sinkDone`
event is the sink invoking the write callback (with an optional error).
Events whose trigger is not pending (no timer scheduled, no write in
flight) are no-ops, so every event list is a valid schedule.
-/

namespace QFputs

/-- A payload submitted to `Fputs.write`: a JS string (list of character
codes) or a `Buffer` (list of bytes). -/
inductive Data where
  | str : List Nat → Data
  | buf : List Nat → Data
deriving DecidableEq

/-- JS `.length` of a payload: character count for strings, byte count for
buffers.  This is the unit in which the counters are maintained. -/
def Data.jsLen : Data → Nat
  | .str s => s.length
  | .buf b => b.length

/-- Byte encoding of a string: each character's encoded bytes, concatenated
(`Buffer.from(str)`). -/
def encStr (enc : Nat → List Nat) (s : List Nat) : List Nat :=
  (s.map enc).flatten

/-- The bytes a payload stands for (strings taken via their encoding). -/
def Data.bytes (enc : Nat → List Nat) : Data → List Nat
  | .str s => encStr enc s
  | .buf b => b

/-- One entry of `this.datachunks`: either an accumulator string, or a
`{ length, chunks }` object holding a running length and a list of
buffers. -/
inductive Chunk where
  | text : List Nat → Chunk
  | bin : Nat → List (List Nat) → Chunk
deriving DecidableEq

/-- The `.length` of a queued chunk as the JS code reads it. -/
def Chunk.len : Chunk → Nat
  | .text t => t.length
  | .bin n _ => n

/-- The bytes a queued chunk stands for. -/
def Chunk.bytes (enc : Nat → List Nat) : Chunk → List Nat
  | .text t => encStr enc t
  | .bin _ bufs => bufs.flatten

/-- `_sync` materializes the popped chunk before handing it to the sink:
a string chunk is passed as is, a buffer chunk via `Buffer.concat`. -/
def Chunk.materialize : Chunk → Data
  | .text t => .str t
  | .bin _ bufs => .buf bufs.flatten

/-- String branch of `Fputs.prototype.write` (lines 118-128): merge the
string into the last chunk when it is a string with room, else push. -/
def appendStr (ws : Nat) (q : List Chunk) (s : List Nat) : List Chunk :=
  match q with
  | [] => [Chunk.text s]
  | [c] =>
    match c with
    | Chunk.text t =>
      if t.length + s.length ≤ ws then [Chunk.text (t ++ s)]
      else [Chunk.text t, Chunk.text s]
    | Chunk.bin n bufs => [Chunk.bin n bufs, Chunk.text s]
  | c :: c2 :: rest => c :: appendStr ws (c2 :: rest) s

/-- Buffer branch of `Fputs.prototype.write` (lines 130-157).  Returns the
new queue together with the adjustment made to `unwrittenLength` when a
trailing string chunk is converted to a buffer (`chunk.length -
lastChunk.length`, which is encoded-byte length minus character count). -/
def appendBuf (enc : Nat → List Nat) (ws : Nat) (q : List Chunk) (b : List Nat) :
    List Chunk × Int :=
  match q with
  | [] => ([Chunk.bin b.length [b]], 0)
  | [c1] =>
    match c1 with
    | Chunk.text t =>
      if t.length < ws then
        -- buffer follows a lone string: swap the string for a buffer list
        let tb := encStr enc t
        ([Chunk.bin (tb.length + b.length) [tb, b]],
         (tb.length : Int) - (t.length : Int))
      else ([Chunk.text t, Chunk.bin b.length [b]], 0)
    | Chunk.bin n bufs =>
      if n < ws then ([Chunk.bin (n + b.length) (bufs ++ [b])], 0)
      else ([Chunk.bin n bufs, Chunk.bin b.length [b]], 0)
  | [c2, c1] =>
    match c1 with
    | Chunk.text t =>
      if t.length < ws then
        match c2 with
        | Chunk.bin n2 bufs2 =>
          if n2 < ws * 2 then
            -- combine buffer-string-buffer into one buffer chunk
            let tb := encStr enc t
            ([Chunk.bin (n2 + (tb.length + b.length)) (bufs2 ++ [tb, b])],
             (tb.length : Int) - (t.length : Int))
          else
            let tb := encStr enc t
            ([Chunk.bin n2 bufs2, Chunk.bin (tb.length + b.length) [tb, b]],
             (tb.length : Int) - (t.length : Int))
        | Chunk.text t2 =>
          let tb := encStr enc t
          ([Chunk.text t2, Chunk.bin (tb.length + b.length) [tb, b]],
           (tb.length : Int) - (t.length : Int))
      else ([c2, Chunk.text t, Chunk.bin b.length [b]], 0)
    | Chunk.bin n bufs =>
      if n < ws then ([c2, Chunk.bin (n + b.length) (bufs ++ [b])], 0)
      else ([c2, Chunk.bin n bufs, Chunk.bin b.length [b]], 0)
  | c :: c2 :: c3 :: rest =>
    let r := appendBuf enc ws (c2 :: c3 :: rest) b
    (c :: r.1, r.2)

/-- The `Fputs` instance state (constructor lines 47-70).  `errorState` is
the `_error` latch; no `_onError` handler is registered in this model. -/
structure Fputs where
  writesize : Nat
  highWaterMark : Nat
  datachunks : List Chunk
  unwrittenLength : Int
  writtenLength : Int
  resetCount : Nat
  syncing : Bool
  errorState : Option Nat
deriving DecidableEq

/-- A fresh `Fputs` with the given `writesize` and `highWaterMark`. -/
def initFputs (ws hwm : Nat) : Fputs :=
  { writesize := ws, highWaterMark := hwm, datachunks := [],
    unwrittenLength := 0, writtenLength := 0, resetCount := 0,
    syncing := false, errorState := none }

/-- The merge phase of `write` (lines 113-158): queue update plus the
mid-call `unwrittenLength` adjustment from string-to-buffer conversion. -/
def Fputs.mergeData (enc : Nat → List Nat) (fp : Fputs) (d : Data) : Fputs :=
  match d with
  | .str s => { fp with datachunks := appendStr fp.writesize fp.datachunks s }
  | .buf b =>
    let r := appendBuf enc fp.writesize fp.datachunks b
    { fp with datachunks := r.1, unwrittenLength := fp.unwrittenLength + r.2 }

/-- Lines 160-164: reset both counters and bump `resetCount` when
`writtenLength` is nonzero and has reached `unwrittenLength`. -/
def Fputs.applyReset (fp : Fputs) : Fputs :=
  if fp.writtenLength ≠ 0 ∧ fp.writtenLength ≥ fp.unwrittenLength then
    { fp with writtenLength := 0, unwrittenLength := 0,
              resetCount := fp.resetCount + 1 }
  else fp

/-- `Fputs.prototype.write` (lines 113-176): merge, reset check, count the
new data, mark syncing, and return the backpressure boolean
`unwrittenLength - writtenLength <= highWaterMark`. -/
def Fputs.write (enc : Nat → List Nat) (fp : Fputs) (d : Data) : Fputs × Bool :=
  let m := fp.mergeData enc d
  let r := m.applyReset
  let fp2 := { r with unwrittenLength := r.unwrittenLength + (d.jsLen : Int),
                      syncing := true }
  (fp2, decide (fp2.unwrittenLength - fp2.writtenLength ≤ (fp2.highWaterMark : Int)))

/-- `getUnwrittenLength` (lines 98-100). -/
def Fputs.getUnwrittenLength (fp : Fputs) : Int :=
  fp.unwrittenLength - fp.writtenLength

/-- `fputs` newline handling (line 107): append a newline unless the last
character already is one. -/
def terminateLine (s : List Nat) : List Nat :=
  if s.getLast? = some 10 then s else s ++ [10]

/-- `Fputs.prototype.fputs` (lines 105-108).  The source calls
`this.write(...)` without a `return` statement, so the JS function
evaluates to `undefined`: the second component models the returned value
and is therefore `none`, never the boolean `write` computed. -/
def Fputs.fputs (enc : Nat → List Nat) (fp : Fputs) (s : List Nat) :
    Fputs × Option Bool :=
  ((fp.write enc (Data.str (terminateLine s))).1, none)

/-- `reportError` (lines 81-84) with no `_onError` handler registered:
latch the first error. -/
def Fputs.reportError (fp : Fputs) (e : Nat) : Fputs :=
  if fp.errorState = none then { fp with errorState := some e } else fp

/-- `returnError` (lines 86-90): hand back the latched error and clear it. -/
def Fputs.returnError (fp : Fputs) : Fputs × Option Nat :=
  ({ fp with errorState := none }, fp.errorState)

/-- Outcome of calling `fflush`: either the callback fires at once (`done`,
carrying the post-call state and the error handed to the callback), or the
waitloop parks with its snapshot of `unwrittenLength` and `resetCount`. -/
inductive FlushOutcome where
  | done : Fputs → Option Nat → FlushOutcome
  | waiting : Int → Nat → FlushOutcome
deriving DecidableEq

/-- Whether the `fflush` callback has fired. -/
def FlushOutcome.isDone : FlushOutcome → Bool
  | .done _ _ => true
  | .waiting _ _ => false

/-- `Fputs.prototype.fflush` (lines 204-216) at call time: an already
latched error is returned immediately (line 205); otherwise the waitloop
runs once against the snapshot (`expectedWrittenLength :=
unwrittenLength`, current `resetCount`) and either fires the callback with
`returnError()` or keeps waiting. -/
def Fputs.fflushCall (fp : Fputs) : FlushOutcome :=
  if fp.errorState.isSome then .done fp.returnError.1 fp.returnError.2
  else if fp.writtenLength ≥ fp.unwrittenLength then
    .done fp.returnError.1 fp.returnError.2
  else .waiting fp.unwrittenLength fp.resetCount

/-- One later iteration of the `fflush` waitloop (lines 210-215) against
the snapshot taken at call time: fires the callback with `returnError()`
once `writtenLength` reaches the snapshot or the reset epoch changed. -/
def Fputs.fflushPoll (fp : Fputs) (expected : Int) (rc : Nat) :
    Option (Fputs × Option Nat) :=
  if fp.writtenLength ≥ expected ∨ fp.resetCount ≠ rc then some fp.returnError
  else none

/-- One iteration of `drain` (lines 182-199): a latched error is returned
at once; otherwise the callback fires (with no error) when the backlog is
at most `maxUnwritten`, else drain keeps polling (`none`). -/
def Fputs.drainTry (fp : Fputs) (maxUnwritten : Int) : Option (Fputs × Option Nat) :=
  if fp.errorState.isSome then some fp.returnError
  else if fp.unwrittenLength - fp.writtenLength ≤ maxUnwritten then some (fp, none)
  else none

/-- The whole writer-plus-sink system: the `Fputs` state, the number of
`_sync` invocations sitting on the timer queue, the payloads handed to the
sink whose callbacks are still pending (FIFO), and the log of every
payload ever handed to the sink, in order. -/
structure Sys where
  fp : Fputs
  scheduled : Nat
  inFlight : List Data
  sinkLog : List Data
deriving DecidableEq

/-- A fresh idle system. -/
def initSys (ws hwm : Nat) : Sys :=
  { fp := initFputs ws hwm, scheduled := 0, inFlight := [], sinkLog := [] }

/-- Events: public API calls (`write`, `puts`), a scheduled `_sync` timer
firing, and the sink completing the oldest outstanding write with an
optional error. -/
inductive Ev where
  | write : Data → Ev
  | puts : List Nat → Ev
  | syncFire : Ev
  | sinkDone : Option Nat → Ev

/-- A `write` call (lines 113-176): run the buffer logic; if the writer
was idle, schedule one `_sync` invocation (`setTimeout(_sync, 1)`). -/
def stepWrite (enc : Nat → List Nat) (s : Sys) (d : Data) : Sys :=
  let wasSyncing := s.fp.syncing
  { s with fp := (s.fp.write enc d).1,
           scheduled := s.scheduled + (if wasSyncing then 0 else 1) }

/-- A scheduled `_sync` invocation fires (lines 235-244): with an empty
queue it clears `_syncing` and stops; otherwise it shifts the front chunk,
materializes it and hands it to the sink (`writable.write`). -/
def stepSync (s : Sys) : Sys :=
  if s.scheduled = 0 then s
  else
    match s.fp.datachunks with
    | [] => { s with scheduled := s.scheduled - 1,
                     fp := { s.fp with syncing := false } }
    | c :: rest =>
      let p := c.materialize
      { s with scheduled := s.scheduled - 1,
               fp := { s.fp with datachunks := rest },
               inFlight := s.inFlight ++ [p],
               sinkLog := s.sinkLog ++ [p] }

/-- The sink invokes the write callback (lines 244-251): add the chunk's
length to `writtenLength` whether or not there is an error, latch any
error, then either schedule the next `_sync` (queue nonempty) or clear
`_syncing`. -/
def stepSinkDone (s : Sys) (err : Option Nat) : Sys :=
  match s.inFlight with
  | [] => s
  | p :: rest =>
    let fp1 := { s.fp with writtenLength := s.fp.writtenLength + (p.jsLen : Int) }
    let fp2 : Fputs := match err with
      | some e => fp1.reportError e
      | none => fp1
    if fp2.datachunks.length > 0 then
      { s with fp := fp2, inFlight := rest, scheduled := s.scheduled + 1 }
    else
      { s with fp := { fp2 with syncing := false }, inFlight := rest }

/-- One system step per event. -/
def step (enc : Nat → List Nat) (s : Sys) : Ev → Sys
  | .write d => stepWrite enc s d
  | .puts str => stepWrite enc s (Data.str (terminateLine str))
  | .syncFire => stepSync s
  | .sinkDone err => stepSinkDone s err

/-- Run a schedule of events. -/
def run (enc : Nat → List Nat) (evs : List Ev) (s : Sys) : Sys :=
  evs.foldl (step enc) s

/-- The bytes an event submits to the writer (empty for non-write events). -/
def evBytes (enc : Nat → List Nat) : Ev → List Nat
  | .write d => d.bytes enc
  | .puts str => (Data.str (terminateLine str)).bytes enc
  | .syncFire => []
  | .sinkDone _ => []

/-- Concatenated bytes submitted over a schedule, in submission order. -/
def tracedBytes (enc : Nat → List Nat) (evs : List Ev) : List Nat :=
  (evs.map (evBytes enc)).flatten

/-- Concatenated bytes of the queued chunks, front first. -/
def queueBytes (enc : Nat → List Nat) (q : List Chunk) : List Nat :=
  (q.map (Chunk.bytes enc)).flatten

/-- Concatenated bytes of a list of sink payloads, in order. -/
def logBytes (enc : Nat → List Nat) (l : List Data) : List Nat :=
  (l.map (Data.bytes enc)).flatten

/-- A buffer chunk's stored `length` field equals the byte count of its
buffer list (the data-model invariant). -/
def chunkWf : Chunk → Prop
  | .text _ => True
  | .bin n bufs => n = (bufs.map List.length).sum

/-- Total declared length of the queued chunks. -/
def chunkSum (q : List Chunk) : Nat := (q.map Chunk.len).sum

/-- Total JS length of the in-flight sink payloads. -/
def flightLen (l : List Data) : Nat := (l.map Data.jsLen).sum

/-- The system invariant: well-formed buffer chunks; the single-flight
bookkeeping (`_syncing` is set exactly when one `_sync` timer or one sink
write is outstanding); a nonempty queue implies `_syncing`; and the
counter accounting `unwrittenLength - writtenLength` = queued + in-flight
lengths. -/
def SysInv (s : Sys) : Prop :=
  (∀ c ∈ s.fp.datachunks, chunkWf c) ∧
  s.scheduled + s.inFlight.length = (if s.fp.syncing then 1 else 0) ∧
  (s.fp.datachunks = [] ∨ s.fp.syncing = true) ∧
  s.fp.unwrittenLength - s.fp.writtenLength
    = (chunkSum s.fp.datachunks : Int) + (flightLen s.inFlight : Int)

/-- The reopen mode computed by the `FileWriter` constructor
(filewriter.js lines 38-43): a mode whose first character is `w` (119) is
downgraded to `a+` (`[97, 43]`) when its second character is `+` (43) or
`r` (114), else to `a` (`[97]`); any other mode is kept unchanged. -/
def reopenModeOf (m : List Nat) : List Nat :=
  if m.head? = some 119 then
    if m.tail.head? = some 43 ∨ m.tail.head? = some 114 then [97, 43] else [97]
  else m

/-- `FileWriter` open-mode state (filewriter.js constructor). -/
structure FileWriter where
  openmode : List Nat
  reopenmode : List Nat
  isFirstOpen : Bool
deriving DecidableEq

/-- `new FileWriter(filename, openmode)` mode bookkeeping. -/
def FileWriter.init (m : List Nat) : FileWriter :=
  { openmode := m, reopenmode := reopenModeOf m, isFirstOpen := true }

/-- Filesystem open errors in the model. -/
inductive FsErr where
  | enoent
  | einval
deriving DecidableEq

/-- `fs.open` over a single-file world (`none` = the file does not exist),
keyed on the first character of the mode string: `r` (114) requires the
file and keeps its contents, `w` (119) creates or truncates, `a` (97)
creates if absent and otherwise keeps the contents. -/
def fsOpen (mode : List Nat) (f : Option (List Nat)) :
    Except FsErr (List Nat) :=
  if mode.head? = some 114 then
    match f with
    | none => .error .enoent
    | some c => .ok c
  else if mode.head? = some 119 then .ok []
  else if mode.head? = some 97 then .ok (f.getD [])
  else .error .einval

/-- Result of a `_reopenFd` call: the mode handed to `fs.open` by the last
attempt, the resulting file world, and the updated writer state on
success. -/
structure ReopenResult where
  modeUsed : List Nat
  world : Option (List Nat)
  writer : Option FileWriter
deriving DecidableEq

/-- The mode the next `fs.open` will use (line 55): the caller's mode for
a first open, the downgraded mode afterwards. -/
def FileWriter.openModeNow (w : FileWriter) : List Nat :=
  if w.isFirstOpen then w.openmode else w.reopenmode

/-- One `fs.open` attempt inside `_reopenFd` (lines 55, 64): first opens
use `openmode`, later ones `reopenmode`; on success `isFirstOpen` is
cleared. -/
def FileWriter.attemptOpen (w : FileWriter) (f : Option (List Nat)) :
    ReopenResult × Option FsErr :=
  match fsOpen w.openModeNow f with
  | .ok c =>
    ({ modeUsed := w.openModeNow, world := some c,
       writer := some { w with isFirstOpen := false } }, none)
  | .error e => ({ modeUsed := w.openModeNow, world := f, writer := none }, some e)

/-- `_reopenFd` (lines 53-80) including the ENOENT recovery (lines 65-73):
if a non-first open fails with ENOENT and `openmode` is not read-only, the
writer is marked as first-open again and the open is retried once with the
original mode (a second ENOENT is then reported, since the retried call
sees `isFirstOpen`). -/
def FileWriter.reopenFd (w : FileWriter) (f : Option (List Nat)) : ReopenResult :=
  match w.attemptOpen f with
  | (r, some FsErr.enoent) =>
    if w.openmode.head? ≠ some 114 ∧ w.isFirstOpen = false then
      (({ w with isFirstOpen := true }).attemptOpen f).1
    else r
  | (r, _) => r

/-- A multi-file filesystem world for `renameFile`: names are `Nat`,
contents byte lists. -/
abbrev FsWorld : Type := List (Nat × List Nat)

/-- Look a file up by name. -/
def fsLookup (w : FsWorld) (n : Nat) : Option (List Nat) :=
  match w with
  | [] => none
  | (k, v) :: rest => if k = n then some v else fsLookup rest n

/-- Create or overwrite a file. -/
def fsSet (w : FsWorld) (n : Nat) (c : List Nat) : FsWorld :=
  match w with
  | [] => [(n, c)]
  | (k, v) :: rest => if k = n then (n, c) :: rest else (k, v) :: fsSet rest n c

/-- Remove a file. -/
def fsRemove (w : FsWorld) (n : Nat) : FsWorld :=
  match w with
  | [] => []
  | (k, v) :: rest => if k = n then fsRemove rest n else (k, v) :: fsRemove rest n

/-- Errors of the `renameFile` protocol. -/
inductive RenameErr where
  | enoent
  | eexist
deriving DecidableEq

/-- `FileWriter.renameFile` (filewriter.js lines 146-201) over the world
model, with no concurrent writers: (1) open `oldName` read-only — ENOENT
aborts; (2) open `newName` with `wx` — EEXIST aborts if it exists, else
the empty file is created; (3) `renameSync(oldName, newName)`; steps 4-6
(settle wait, lock of the renamed file, unlock/close) do not change the
world and succeed.  Returns the reported error and the final world. -/
def renameFile (w : FsWorld) (oldName newName : Nat) :
    Option RenameErr × FsWorld :=
  match fsLookup w oldName with
  | none => (some .enoent, w)
  | some oldC =>
    match fsLookup w newName with
    | some _ => (some .eexist, w)
    | none =>
      let w1 := fsSet w newName []
      let w2 := fsSet (fsRemove w1 oldName) newName oldC
      (none, w2)

/-- Node's `buf.write(str)` byte count against a scratch buffer of `cap`
free bytes: characters are encoded one at a time and writing stops at the
first character whose encoding no longer fits. -/
def scratchWriteLen (enc : Nat → List Nat) (cap : Nat) (s : List Nat) : Nat :=
  match s with
  | [] => 0
  | c :: rest =>
    let e := enc c
    if e.length ≤ cap then e.length + scratchWriteLen enc (cap - e.length) rest
    else 0

/-- The bytes `buf.write(str)` actually places in the scratch buffer. -/
def scratchWriteBytes (enc : Nat → List Nat) (cap : Nat) (s : List Nat) : List Nat :=
  match s with
  | [] => []
  | c :: rest =>
    let e := enc c
    if e.length ≤ cap then e ++ scratchWriteBytes enc (cap - e.length) rest
    else []

/-- `FileWriter.prototype.write` (lines 111-135) byte selection: a
`Buffer` payload is written as is; a string is first encoded into the
shared scratch buffer of capacity `cap`, and if the byte count lands
within 4 bytes of the capacity (`nbytes > buf.length - 4`, over JS
numbers) a fresh buffer holding the full encoding is allocated instead.
Returns whether the scratch buffer was used, and the bytes handed to
`fs.write`. -/
def fwWriteBytes (enc : Nat → List Nat) (cap : Nat) (d : Data) :
    Bool × List Nat :=
  match d with
  | .buf b => (false, b)
  | .str s =>
    let nbytes := scratchWriteLen enc cap s
    if (nbytes : Int) > (cap : Int) - 4 then (false, encStr enc s)
    else (true, scratchWriteBytes enc cap s)

/-! ### Basic lemmas about the byte and length accounting -/

theorem encStr_append (enc : Nat → List Nat) (t s : List Nat) :
    encStr enc (t ++ s) = encStr enc t ++ encStr enc s := by
  simp [encStr]

@[simp] theorem queueBytes_nil (enc : Nat → List Nat) : queueBytes enc [] = [] := rfl

@[simp] theorem queueBytes_cons (enc : Nat → List Nat) (c : Chunk) (q : List Chunk) :
    queueBytes enc (c :: q) = Chunk.bytes enc c ++ queueBytes enc q := by
  simp [queueBytes]

@[simp] theorem chunkSum_nil : chunkSum [] = 0 := rfl

@[simp] theorem chunkSum_cons (c : Chunk) (q : List Chunk) :
    chunkSum (c :: q) = Chunk.len c + chunkSum q := by
  simp [chunkSum]

@[simp] theorem flightLen_nil : flightLen [] = 0 := rfl

@[simp] theorem flightLen_cons (d : Data) (l : List Data) :
    flightLen (d :: l) = Data.jsLen d + flightLen l := by
  simp [flightLen]

@[simp] theorem flightLen_append (l l' : List Data) :
    flightLen (l ++ l') = flightLen l + flightLen l' := by
  simp [flightLen]

@[simp] theorem logBytes_nil (enc : Nat → List Nat) : logBytes enc [] = [] := rfl

@[simp] theorem logBytes_append (enc : Nat → List Nat) (l l' : List Data) :
    logBytes enc (l ++ l') = logBytes enc l ++ logBytes enc l' := by
  simp [logBytes]

/-- Materializing a chunk does not change the bytes it stands for. -/
theorem materialize_bytes (enc : Nat → List Nat) (c : Chunk) :
    Data.bytes enc c.materialize = Chunk.bytes enc c := by
  cases c <;> simp [Chunk.materialize, Data.bytes, Chunk.bytes]

/-- For a well-formed chunk, the materialized payload's JS length is the
chunk's declared length. -/
theorem materialize_jsLen (c : Chunk) (h : chunkWf c) :
    Data.jsLen c.materialize = Chunk.len c := by
  cases c with
  | text t => rfl
  | bin n bufs =>
    simp only [Chunk.materialize, Data.jsLen, Chunk.len]
    simp [chunkWf] at h
    simp [h]

/-! ### The string merge branch -/

theorem appendStr_bytes (enc : Nat → List Nat) (ws : Nat) (q : List Chunk)
    (s : List Nat) :
    queueBytes enc (appendStr ws q s) = queueBytes enc q ++ encStr enc s := by
  induction q with
  | nil => simp [appendStr, Chunk.bytes]
  | cons c rest ih =>
    cases rest with
    | nil =>
      cases c with
      | text t =>
        by_cases h : t.length + s.length ≤ ws <;>
          simp [appendStr, h, Chunk.bytes, encStr_append]
      | bin n bufs => simp [appendStr, Chunk.bytes]
    | cons c2 rest2 =>
      simp only [appendStr, queueBytes_cons, ih, List.append_assoc]

theorem appendStr_sum (ws : Nat) (q : List Chunk) (s : List Nat) :
    chunkSum (appendStr ws q s) = chunkSum q + s.length := by
  induction q with
  | nil => simp [appendStr, Chunk.len]
  | cons c rest ih =>
    cases rest with
    | nil =>
      cases c with
      | text t =>
        by_cases h : t.length + s.length ≤ ws <;>
          simp [appendStr, h, Chunk.len]
      | bin n bufs => simp [appendStr, Chunk.len]
    | cons c2 rest2 =>
      simp only [appendStr, chunkSum_cons, ih]
      omega

theorem appendStr_wf (ws : Nat) (q : List Chunk) (s : List Nat)
    (h : ∀ c ∈ q, chunkWf c) : ∀ c ∈ appendStr ws q s, chunkWf c := by
  induction q with
  | nil => simp [appendStr, chunkWf]
  | cons c rest ih =>
    cases rest with
    | nil =>
      cases c with
      | text t =>
        by_cases hl : t.length + s.length ≤ ws <;>
          simp [appendStr, hl, chunkWf]
      | bin n bufs =>
        simp only [appendStr]
        intro c hc
        simp at hc
        rcases hc with h1 | h2
        · subst h1; exact h _ (by simp)
        · subst h2; trivial
    | cons c2 rest2 =>
      simp only [appendStr]
      intro x hx
      rcases List.mem_cons.1 hx with h1 | h2
      · subst h1; exact h _ (by simp)
      · exact ih (fun y hy => h y (List.mem_cons_of_mem _ hy)) _ h2

/-! ### The buffer merge branch -/

theorem appendBuf_bytes (enc : Nat → List Nat) (ws : Nat) (q : List Chunk)
    (b : List Nat) :
    queueBytes enc (appendBuf enc ws q b).1 = queueBytes enc q ++ b := by
  induction q with
  | nil => simp [appendBuf, Chunk.bytes]
  | cons c rest ih =>
    cases rest with
    | nil =>
      cases c with
      | text t =>
        by_cases h : t.length < ws <;>
          simp [appendBuf, h, Chunk.bytes]
      | bin n bufs =>
        by_cases h : n < ws <;>
          simp [appendBuf, h, Chunk.bytes]
    | cons c2 rest2 =>
      cases rest2 with
      | nil =>
        cases c2 with
        | text t =>
          by_cases h : t.length < ws
          · cases c with
            | bin n2 bufs2 =>
              by_cases h2 : n2 < ws * 2 <;>
                simp [appendBuf, h, h2, Chunk.bytes]
            | text t2 =>
              simp [appendBuf, h, Chunk.bytes]
          · cases c <;> simp [appendBuf, h, Chunk.bytes]
        | bin n bufs =>
          by_cases h : n < ws <;>
            cases c <;> simp [appendBuf, h, Chunk.bytes]
      | cons c3 rest3 =>
        simp only [appendBuf, queueBytes_cons, ih, List.append_assoc]

theorem appendBuf_sum (enc : Nat → List Nat) (ws : Nat) (q : List Chunk)
    (b : List Nat) :
    (chunkSum (appendBuf enc ws q b).1 : Int)
      = (chunkSum q : Int) + (appendBuf enc ws q b).2 + (b.length : Int) := by
  induction q with
  | nil => simp [appendBuf, Chunk.len]
  | cons c rest ih =>
    cases rest with
    | nil =>
      cases c with
      | text t =>
        by_cases h : t.length < ws <;>
          simp [appendBuf, h, Chunk.len]
      | bin n bufs =>
        by_cases h : n < ws <;>
          simp [appendBuf, h, Chunk.len]
    | cons c2 rest2 =>
      cases rest2 with
      | nil =>
        cases c2 with
        | text t =>
          by_cases h : t.length < ws
          · cases c with
            | bin n2 bufs2 =>
              by_cases h2 : n2 < ws * 2 <;>
                simp [appendBuf, h, h2, Chunk.len] <;> ring
            | text t2 =>
              simp [appendBuf, h, Chunk.len]; ring
          · cases c <;> simp [appendBuf, h, Chunk.len] <;> ring
        | bin n bufs =>
          by_cases h : n < ws <;>
            cases c <;> simp [appendBuf, h, Chunk.len] <;> ring
      | cons c3 rest3 =>
        simp only [appendBuf, chunkSum_cons]
        push_cast
        simp only [chunkSum_cons] at ih
        push_cast at ih
        omega

theorem appendBuf_ge (enc : Nat → List Nat) (ws : Nat) (q : List Chunk)
    (b : List Nat) :
    b.length ≤ chunkSum (appendBuf enc ws q b).1 := by
  induction q with
  | nil => simp [appendBuf, Chunk.len]
  | cons c rest ih =>
    cases rest with
    | nil =>
      cases c with
      | text t =>
        by_cases h : t.length < ws <;>
          simp [appendBuf, h, Chunk.len]
      | bin n bufs =>
        by_cases h : n < ws <;>
          simp [appendBuf, h, Chunk.len]
    | cons c2 rest2 =>
      cases rest2 with
      | nil =>
        cases c2 with
        | text t =>
          by_cases h : t.length < ws
          · cases c with
            | bin n2 bufs2 =>
              by_cases h2 : n2 < ws * 2 <;>
                simp [appendBuf, h, h2, Chunk.len] <;> omega
            | text t2 =>
              simp [appendBuf, h, Chunk.len]
              omega
          · cases c <;> simp [appendBuf, h, Chunk.len] <;> omega
        | bin n bufs =>
          by_cases h : n < ws <;>
            cases c <;> simp [appendBuf, h, Chunk.len] <;> omega
      | cons c3 rest3 =>
        simp only [appendBuf, chunkSum_cons]
        omega

@[simp] theorem chunkWf_text (t : List Nat) : chunkWf (Chunk.text t) := trivial

theorem chunkWf_bin {n : Nat} {bufs : List (List Nat)}
    (h : n = (bufs.map List.length).sum) : chunkWf (Chunk.bin n bufs) := h

theorem appendBuf_wf (enc : Nat → List Nat) (ws : Nat) (q : List Chunk)
    (b : List Nat) (h : ∀ c ∈ q, chunkWf c) :
    ∀ c ∈ (appendBuf enc ws q b).1, chunkWf c := by
  induction q with
  | nil =>
    simp only [appendBuf, List.forall_mem_singleton]
    exact chunkWf_bin (by simp)
  | cons c rest ih =>
    cases rest with
    | nil =>
      cases c with
      | text t =>
        by_cases hl : t.length < ws <;>
          simp only [appendBuf, hl, if_true, if_false, reduceIte,
            List.forall_mem_singleton, List.forall_mem_cons]
        · exact chunkWf_bin (by simp)
        · exact ⟨trivial, chunkWf_bin (by simp)⟩
      | bin n bufs =>
        have hc0 : chunkWf (Chunk.bin n bufs) := h _ (by simp)
        have hc : n = (bufs.map List.length).sum := hc0
        by_cases hl : n < ws <;>
          simp only [appendBuf, hl, if_true, if_false, reduceIte,
            List.forall_mem_singleton, List.forall_mem_cons]
        · exact chunkWf_bin (by simp [hc])
        · exact ⟨chunkWf_bin hc, chunkWf_bin (by simp)⟩
    | cons c2 rest2 =>
      cases rest2 with
      | nil =>
        have hcf : chunkWf c := h _ (by simp)
        have hc2 : chunkWf c2 := h _ (by simp)
        cases c2 with
        | text t =>
          by_cases hl : t.length < ws
          · cases c with
            | bin n2 bufs2 =>
              have hcc : n2 = (bufs2.map List.length).sum := hcf
              by_cases h2 : n2 < ws * 2 <;>
                simp only [appendBuf, hl, h2, if_true, if_false, reduceIte,
                  List.forall_mem_singleton, List.forall_mem_cons]
              · exact chunkWf_bin (by simp [hcc])
              · exact ⟨hcf, chunkWf_bin (by simp)⟩
            | text t2 =>
              simp only [appendBuf, hl, if_true, reduceIte,
                List.forall_mem_singleton, List.forall_mem_cons]
              exact ⟨trivial, chunkWf_bin (by simp)⟩
          · simp only [appendBuf, hl, if_false, reduceIte,
              List.forall_mem_singleton, List.forall_mem_cons]
            exact ⟨hcf, trivial, chunkWf_bin (by simp)⟩
        | bin n bufs =>
          have hcn : n = (bufs.map List.length).sum := hc2
          by_cases hl : n < ws <;>
            simp only [appendBuf, hl, if_true, if_false, reduceIte,
              List.forall_mem_singleton, List.forall_mem_cons]
          · exact ⟨hcf, chunkWf_bin (by simp [hcn])⟩
          · exact ⟨hcf, chunkWf_bin hcn, chunkWf_bin (by simp)⟩
      | cons c3 rest3 =>
        simp only [appendBuf]
        intro x hx
        rcases List.mem_cons.1 hx with h1 | h2
        · subst h1; exact h _ (by simp)
        · exact ih (fun y hy => h y (List.mem_cons_of_mem _ hy)) _ h2

/-! ### Properties of the merge phase of `write` -/

@[simp] theorem mergeData_writtenLength (enc : Nat → List Nat) (fp : Fputs) (d : Data) :
    (fp.mergeData enc d).writtenLength = fp.writtenLength := by
  cases d <;> simp [Fputs.mergeData]

@[simp] theorem mergeData_resetCount (enc : Nat → List Nat) (fp : Fputs) (d : Data) :
    (fp.mergeData enc d).resetCount = fp.resetCount := by
  cases d <;> simp [Fputs.mergeData]

@[simp] theorem mergeData_syncing (enc : Nat → List Nat) (fp : Fputs) (d : Data) :
    (fp.mergeData enc d).syncing = fp.syncing := by
  cases d <;> simp [Fputs.mergeData]

@[simp] theorem mergeData_errorState (enc : Nat → List Nat) (fp : Fputs) (d : Data) :
    (fp.mergeData enc d).errorState = fp.errorState := by
  cases d <;> simp [Fputs.mergeData]

theorem mergeData_bytes (enc : Nat → List Nat) (fp : Fputs) (d : Data) :
    queueBytes enc (fp.mergeData enc d).datachunks
      = queueBytes enc fp.datachunks ++ d.bytes enc := by
  cases d <;> simp [Fputs.mergeData, appendStr_bytes, appendBuf_bytes, Data.bytes]

theorem mergeData_sum (enc : Nat → List Nat) (fp : Fputs) (d : Data) :
    (chunkSum (fp.mergeData enc d).datachunks : Int)
      = (chunkSum fp.datachunks : Int)
        + ((fp.mergeData enc d).unwrittenLength - fp.unwrittenLength)
        + (d.jsLen : Int) := by
  cases d with
  | str s =>
    simp [Fputs.mergeData, appendStr_sum, Data.jsLen]
  | buf b =>
    simp only [Fputs.mergeData, Data.jsLen]
    have := appendBuf_sum enc fp.writesize fp.datachunks b
    push_cast at this ⊢
    omega

theorem mergeData_ge (enc : Nat → List Nat) (fp : Fputs) (d : Data) :
    d.jsLen ≤ chunkSum (fp.mergeData enc d).datachunks := by
  cases d with
  | str s => simp [Fputs.mergeData, appendStr_sum, Data.jsLen]
  | buf b =>
    simpa [Fputs.mergeData, Data.jsLen] using
      appendBuf_ge enc fp.writesize fp.datachunks b

theorem mergeData_wf (enc : Nat → List Nat) (fp : Fputs) (d : Data)
    (h : ∀ c ∈ fp.datachunks, chunkWf c) :
    ∀ c ∈ (fp.mergeData enc d).datachunks, chunkWf c := by
  cases d with
  | str s => simpa [Fputs.mergeData] using appendStr_wf fp.writesize fp.datachunks s h
  | buf b => simpa [Fputs.mergeData] using appendBuf_wf enc fp.writesize fp.datachunks b h

/-! ### The write call as seen by the system -/

theorem write_fst_datachunks (enc : Nat → List Nat) (fp : Fputs) (d : Data) :
    ((fp.write enc d).1).datachunks = (fp.mergeData enc d).datachunks := by
  simp only [Fputs.write, Fputs.applyReset]
  split <;> rfl

@[simp] theorem write_fst_syncing (enc : Nat → List Nat) (fp : Fputs) (d : Data) :
    ((fp.write enc d).1).syncing = true := rfl

@[simp] theorem write_fst_errorState (enc : Nat → List Nat) (fp : Fputs) (d : Data) :
    ((fp.write enc d).1).errorState = fp.errorState := by
  simp only [Fputs.write, Fputs.applyReset]
  split <;> simp

/-- The backlog after a `write` on a state satisfying the counter
accounting: queued plus in-flight lengths are preserved. -/
theorem write_fst_backlog (enc : Nat → List Nat) (fp : Fputs) (d : Data)
    (extra : Nat)
    (h : fp.unwrittenLength - fp.writtenLength
          = (chunkSum fp.datachunks : Int) + (extra : Int)) :
    ((fp.write enc d).1).unwrittenLength - ((fp.write enc d).1).writtenLength
      = (chunkSum (fp.mergeData enc d).datachunks : Int) + (extra : Int) := by
  have hsum := mergeData_sum enc fp d
  have hge := mergeData_ge enc fp d
  have hW := mergeData_writtenLength enc fp d
  simp only [Fputs.write, Fputs.applyReset]
  split_ifs with hc
  · -- the reset fired: writtenLength had caught up with unwrittenLength
    obtain ⟨hne, hle⟩ := hc
    dsimp only
    rw [hW] at hne hle
    omega
  · omega

theorem sysInv_stepWrite (enc : Nat → List Nat) (s : Sys) (d : Data)
    (h : SysInv s) : SysInv (stepWrite enc s d) := by
  obtain ⟨h1, h2, h3, h4⟩ := h
  refine ⟨?_, ?_, ?_, ?_⟩
  · simpa [stepWrite, write_fst_datachunks] using mergeData_wf enc s.fp d h1
  · simp only [stepWrite, write_fst_syncing, if_true]
    by_cases hs : s.fp.syncing
    · simp only [hs, if_true] at h2 ⊢
      simpa using h2
    · simp only [hs, if_false] at h2 ⊢
      simp only [Bool.false_eq_true, if_false] at h2
      simp
      omega
  · right
    simp [stepWrite]
  · simp only [stepWrite, write_fst_datachunks]
    exact write_fst_backlog enc s.fp d (flightLen s.inFlight) h4

@[simp] theorem reportError_datachunks (fp : Fputs) (e : Nat) :
    (fp.reportError e).datachunks = fp.datachunks := by
  simp only [Fputs.reportError]; split <;> rfl

@[simp] theorem reportError_writtenLength (fp : Fputs) (e : Nat) :
    (fp.reportError e).writtenLength = fp.writtenLength := by
  simp only [Fputs.reportError]; split <;> rfl

@[simp] theorem reportError_unwrittenLength (fp : Fputs) (e : Nat) :
    (fp.reportError e).unwrittenLength = fp.unwrittenLength := by
  simp only [Fputs.reportError]; split <;> rfl

@[simp] theorem reportError_syncing (fp : Fputs) (e : Nat) :
    (fp.reportError e).syncing = fp.syncing := by
  simp only [Fputs.reportError]; split <;> rfl

@[simp] theorem reportError_resetCount (fp : Fputs) (e : Nat) :
    (fp.reportError e).resetCount = fp.resetCount := by
  simp only [Fputs.reportError]; split <;> rfl

theorem sysInv_stepSync (s : Sys) (h : SysInv s) : SysInv (stepSync s) := by
  obtain ⟨h1, h2, h3, h4⟩ := h
  unfold stepSync
  by_cases hs : s.scheduled = 0
  · rw [if_pos hs]; exact ⟨h1, h2, h3, h4⟩
  · rw [if_neg hs]
    have hsy : s.fp.syncing = true := by
      rcases Bool.eq_false_or_eq_true s.fp.syncing with hy | hy
      · exact hy
      · exfalso; rw [hy] at h2; simp at h2; omega
    rw [hsy, if_pos rfl] at h2
    have hif : s.inFlight = [] := List.eq_nil_of_length_eq_zero (by omega)
    have hsch : s.scheduled = 1 := by omega
    cases hq : s.fp.datachunks with
    | nil =>
      rw [hq, hif] at h4
      refine ⟨?_, ?_, ?_, ?_⟩
      · dsimp only; rw [hq]; simp
      · dsimp only; rw [hif]; simp [hsch]
      · left; dsimp only; exact hq
      · dsimp only; rw [hq, hif]; simpa using h4
    | cons c rest =>
      have hwfc : chunkWf c := h1 c (by rw [hq]; simp)
      have hjs := materialize_jsLen c hwfc
      rw [hq] at h4
      rw [hif] at h4
      simp only [chunkSum_cons, flightLen_nil] at h4
      refine ⟨?_, ?_, ?_, ?_⟩
      · dsimp only
        intro x hx
        exact h1 x (by rw [hq]; exact List.mem_cons_of_mem _ hx)
      · dsimp only
        rw [hif, hsy]
        simp [hsch]
      · right; dsimp only; exact hsy
      · dsimp only
        rw [hif]
        simp only [List.nil_append, flightLen_cons, flightLen_nil, hjs]
        omega

theorem sysInv_stepSinkDone (s : Sys) (err : Option Nat) (h : SysInv s) :
    SysInv (stepSinkDone s err) := by
  obtain ⟨h1, h2, h3, h4⟩ := h
  unfold stepSinkDone
  cases hif : s.inFlight with
  | nil => exact ⟨h1, h2, h3, h4⟩
  | cons p rest =>
    rw [hif] at h2 h4
    have hsy : s.fp.syncing = true := by
      rcases Bool.eq_false_or_eq_true s.fp.syncing with hy | hy
      · exact hy
      · exfalso; rw [hy] at h2; simp at h2
    rw [hsy, if_pos rfl] at h2
    simp only [List.length_cons] at h2
    have hrest : rest = [] := List.eq_nil_of_length_eq_zero (by omega)
    have hsch : s.scheduled = 0 := by omega
    subst hrest
    simp only [flightLen_cons, flightLen_nil] at h4
    cases err with
    | none =>
      dsimp only
      split_ifs with hq
      · refine ⟨h1, ?_, Or.inr hsy, ?_⟩
        · show s.scheduled + 1 + ([] : List Data).length
            = if s.fp.syncing = true then 1 else 0
          rw [hsy]
          simp [hsch]
        · show s.fp.unwrittenLength - (s.fp.writtenLength + (p.jsLen : Int))
            = (chunkSum s.fp.datachunks : Int) + (flightLen [] : Int)
          simp only [flightLen_nil]
          push_cast at h4 ⊢
          omega
      · refine ⟨h1, ?_, ?_, ?_⟩
        · show s.scheduled + ([] : List Data).length
            = if false = true then 1 else 0
          simp [hsch]
        · left
          show s.fp.datachunks = []
          exact List.eq_nil_of_length_eq_zero (by omega)
        · show s.fp.unwrittenLength - (s.fp.writtenLength + (p.jsLen : Int))
            = (chunkSum s.fp.datachunks : Int) + (flightLen [] : Int)
          simp only [flightLen_nil]
          push_cast at h4 ⊢
          omega
    | some e =>
      dsimp only
      split_ifs with hq
      all_goals simp only [reportError_datachunks] at hq
      · refine ⟨?_, ?_, ?_, ?_⟩
        · show ∀ c ∈ (Fputs.reportError _ e).datachunks, chunkWf c
          simp only [reportError_datachunks]
          exact h1
        · show s.scheduled + 1 + ([] : List Data).length
            = if (Fputs.reportError _ e).syncing = true then 1 else 0
          simp only [reportError_syncing]
          rw [hsy]
          simp [hsch]
        · right
          show (Fputs.reportError _ e).syncing = true
          simp only [reportError_syncing]
          exact hsy
        · show (Fputs.reportError _ e).unwrittenLength
              - (Fputs.reportError _ e).writtenLength
            = (chunkSum (Fputs.reportError _ e).datachunks : Int)
              + (flightLen [] : Int)
          simp only [reportError_datachunks, reportError_writtenLength,
            reportError_unwrittenLength, flightLen_nil]
          push_cast at h4 ⊢
          omega
      · refine ⟨?_, ?_, ?_, ?_⟩
        · show ∀ c ∈ (Fputs.reportError _ e).datachunks, chunkWf c
          simp only [reportError_datachunks]
          exact h1
        · show s.scheduled + ([] : List Data).length
            = if false = true then 1 else 0
          simp [hsch]
        · left
          show (Fputs.reportError _ e).datachunks = []
          simp only [reportError_datachunks]
          exact List.eq_nil_of_length_eq_zero (by omega)
        · show (Fputs.reportError _ e).unwrittenLength
              - (Fputs.reportError _ e).writtenLength
            = (chunkSum (Fputs.reportError _ e).datachunks : Int)
              + (flightLen [] : Int)
          simp only [reportError_datachunks, reportError_writtenLength,
            reportError_unwrittenLength, flightLen_nil]
          push_cast at h4 ⊢
          omega

theorem sysInv_step (enc : Nat → List Nat) (s : Sys) (e : Ev) (h : SysInv s) :
    SysInv (step enc s e) := by
  cases e with
  | write d => exact sysInv_stepWrite enc s d h
  | puts str => exact sysInv_stepWrite enc s _ h
  | syncFire => exact sysInv_stepSync s h
  | sinkDone err => exact sysInv_stepSinkDone s err h

theorem sysInv_init (ws hwm : Nat) : SysInv (initSys ws hwm) := by
  refine ⟨by simp [initSys, initFputs], by simp [initSys, initFputs], ?_, ?_⟩ <;>
    simp [initSys, initFputs]

theorem sysInv_run_of (enc : Nat → List Nat) (evs : List Ev) (s : Sys)
    (h : SysInv s) : SysInv (run enc evs s) := by
  induction evs generalizing s with
  | nil => exact h
  | cons e rest ih => exact ih _ (sysInv_step enc s e h)

theorem sysInv_run (enc : Nat → List Nat) (ws hwm : Nat) (evs : List Ev) :
    SysInv (run enc evs (initSys ws hwm)) :=
  sysInv_run_of enc evs _ (sysInv_init ws hwm)

/-! ### Byte conservation along a schedule -/

theorem run_cons (enc : Nat → List Nat) (e : Ev) (l : List Ev) (s : Sys) :
    run enc (e :: l) s = run enc l (step enc s e) := rfl

theorem run_append (enc : Nat → List Nat) (l1 l2 : List Ev) (s : Sys) :
    run enc (l1 ++ l2) s = run enc l2 (run enc l1 s) := by
  simp [run, List.foldl_append]

theorem step_bytes (enc : Nat → List Nat) (s : Sys) (e : Ev) :
    logBytes enc (step enc s e).sinkLog
        ++ queueBytes enc (step enc s e).fp.datachunks
      = logBytes enc s.sinkLog ++ queueBytes enc s.fp.datachunks
        ++ evBytes enc e := by
  cases e with
  | write d =>
    show logBytes enc s.sinkLog ++ queueBytes enc ((s.fp.write enc d).1).datachunks = _
    rw [write_fst_datachunks, mergeData_bytes]
    simp [evBytes]
  | puts str =>
    show logBytes enc s.sinkLog
        ++ queueBytes enc ((s.fp.write enc (Data.str (terminateLine str))).1).datachunks = _
    rw [write_fst_datachunks, mergeData_bytes]
    simp [evBytes]
  | syncFire =>
    simp only [step, stepSync, evBytes, List.append_nil]
    split_ifs with hs
    · rfl
    · cases hq : s.fp.datachunks with
      | nil => simp [hq]
      | cons c rest =>
        show logBytes enc (s.sinkLog ++ [c.materialize]) ++ queueBytes enc rest = _
        simp only [logBytes_append, queueBytes_cons, List.append_assoc]
        congr 1
        simp only [logBytes, List.map_cons, List.map_nil, List.flatten_cons,
          List.flatten_nil, List.append_nil]
        rw [materialize_bytes]
  | sinkDone err =>
    simp only [step, stepSinkDone, evBytes, List.append_nil]
    cases s.inFlight with
    | nil => rfl
    | cons p rest =>
      cases err with
      | none =>
        dsimp only
        split_ifs <;> rfl
      | some e =>
        dsimp only
        split_ifs <;> simp [reportError_datachunks]

theorem run_bytes (enc : Nat → List Nat) (evs : List Ev) (s : Sys) :
    logBytes enc (run enc evs s).sinkLog
        ++ queueBytes enc (run enc evs s).fp.datachunks
      = logBytes enc s.sinkLog ++ queueBytes enc s.fp.datachunks
        ++ tracedBytes enc evs := by
  induction evs generalizing s with
  | nil => simp [run, tracedBytes]
  | cons e rest ih =>
    rw [run_cons, ih, step_bytes]
    simp [tracedBytes, List.append_assoc]

/-! ### Draining the queue to completion -/

theorem stepSync_pop (s : Sys) (c : Chunk) (rest : List Chunk)
    (hq : s.fp.datachunks = c :: rest) (hs : s.scheduled ≠ 0) :
    (stepSync s).fp.datachunks = rest ∧
    (stepSync s).inFlight = s.inFlight ++ [c.materialize] ∧
    (stepSync s).scheduled = s.scheduled - 1 := by
  unfold stepSync
  rw [if_neg hs, hq]
  exact ⟨rfl, rfl, rfl⟩

theorem stepSinkDone_fields (s : Sys) (p : Data) (rest : List Data)
    (err : Option Nat) (hif : s.inFlight = p :: rest) :
    (stepSinkDone s err).fp.datachunks = s.fp.datachunks ∧
    (stepSinkDone s err).inFlight = rest := by
  unfold stepSinkDone
  rw [hif]
  cases err with
  | none =>
    dsimp only
    split_ifs <;> exact ⟨rfl, rfl⟩
  | some e =>
    dsimp only
    split_ifs <;> exact ⟨by simp [reportError_datachunks], rfl⟩

/-- The event schedule that lets every queued chunk reach the sink:
`queue.length` rounds of a `_sync` firing followed by the sink's (failing)
callback. -/
def syncPairs (n : Nat) (e : Nat) : List Ev :=
  (List.replicate n [Ev.syncFire, Ev.sinkDone (some e)]).flatten

/-- The events that drain a reachable state completely when every sink
write fails with error `e`: finish any outstanding sink write, then run
the queued chunks through the sink. -/
def drainEvs (s : Sys) (e : Nat) : List Ev :=
  (if s.inFlight = [] then [] else [Ev.sinkDone (some e)]) ++
    syncPairs s.fp.datachunks.length e

theorem syncPairs_succ (n : Nat) (e : Nat) :
    syncPairs (n + 1) e
      = Ev.syncFire :: Ev.sinkDone (some e) :: syncPairs n e := by
  simp [syncPairs, List.replicate_succ]

theorem drainAux (enc : Nat → List Nat) (e : Nat) :
    ∀ (n : Nat) (s : Sys), SysInv s → s.inFlight = [] →
      s.fp.datachunks.length = n →
      (run enc (syncPairs n e) s).fp.datachunks = [] ∧
      (run enc (syncPairs n e) s).inFlight = [] := by
  intro n
  induction n with
  | zero =>
    intro s hI hif hlen
    have : syncPairs 0 e = [] := by simp [syncPairs]
    rw [this]
    exact ⟨List.eq_nil_of_length_eq_zero hlen, hif⟩
  | succ n ih =>
    intro s hI hif hlen
    obtain ⟨h1, h2, h3, h4⟩ := hI
    cases hq : s.fp.datachunks with
    | nil => rw [hq] at hlen; simp at hlen
    | cons c rest =>
      have hrest : rest.length = n := by rw [hq] at hlen; simpa using hlen
      have hsy : s.fp.syncing = true := by
        rcases h3 with h3 | h3
        · rw [h3] at hq; simp at hq
        · exact h3
      have hsch : s.scheduled ≠ 0 := by
        rw [hsy, if_pos rfl, hif] at h2
        simp at h2
        omega
      obtain ⟨e1, e2, e3⟩ := stepSync_pop s c rest hq hsch
      rw [hif] at e2
      simp only [List.nil_append] at e2
      have hI1 : SysInv (stepSync s) := sysInv_stepSync s ⟨h1, h2, h3, h4⟩
      obtain ⟨f1, f2⟩ :=
        stepSinkDone_fields (stepSync s) c.materialize [] (some e) e2
      have hI2 : SysInv (stepSinkDone (stepSync s) (some e)) :=
        sysInv_stepSinkDone (stepSync s) (some e) hI1
      rw [syncPairs_succ, run_cons, run_cons]
      refine ih _ hI2 f2 ?_
      show (stepSinkDone (stepSync s) (some e)).fp.datachunks.length = n
      rw [f1, e1]
      exact hrest

/-- After running `drainEvs`, the queue and the in-flight list are empty. -/
theorem drainEvs_empties (enc : Nat → List Nat) (e : Nat) (s : Sys)
    (hI : SysInv s) :
    (run enc (drainEvs s e) s).fp.datachunks = [] ∧
    (run enc (drainEvs s e) s).inFlight = [] := by
  unfold drainEvs
  by_cases hif : s.inFlight = []
  · rw [if_pos hif]
    simp only [List.nil_append]
    exact drainAux enc e _ s hI hif rfl
  · rw [if_neg hif]
    cases hifc : s.inFlight with
    | nil => exact absurd hifc hif
    | cons p rest =>
      have h2 := hI.2.1
      rw [hifc] at h2
      have hrest : rest = [] := by
        rcases Bool.eq_false_or_eq_true s.fp.syncing with hy | hy
        · rw [hy, if_pos rfl] at h2
          simp only [List.length_cons] at h2
          exact List.eq_nil_of_length_eq_zero (by omega)
        · rw [hy] at h2; simp at h2
      subst hrest
      obtain ⟨f1, f2⟩ := stepSinkDone_fields s p [] (some e) hifc
      have hI1 : SysInv (stepSinkDone s (some e)) :=
        sysInv_stepSinkDone s (some e) hI
      show (run enc (Ev.sinkDone (some e) :: syncPairs s.fp.datachunks.length e) s).fp.datachunks = [] ∧ _
      rw [run_cons]
      have hres := drainAux enc e (stepSinkDone s (some e)).fp.datachunks.length
        (stepSinkDone s (some e)) hI1 f2 rfl
      rw [f1] at hres
      exact hres

/-! ### Further step facts -/

theorem stepSync_resetCount (s : Sys) :
    (stepSync s).fp.resetCount = s.fp.resetCount := by
  unfold stepSync
  split_ifs
  · rfl
  · cases s.fp.datachunks <;> rfl

theorem stepSinkDone_resetCount (s : Sys) (err : Option Nat) :
    (stepSinkDone s err).fp.resetCount = s.fp.resetCount := by
  unfold stepSinkDone
  cases s.inFlight with
  | nil => rfl
  | cons p rest =>
    cases err <;> dsimp only <;> split_ifs <;>
      simp [reportError_resetCount]

theorem stepSinkDone_writtenLength (s : Sys) (err : Option Nat) :
    (stepSinkDone s err).fp.writtenLength
      = s.fp.writtenLength + ((s.inFlight.head?.map Data.jsLen).getD 0 : Int) := by
  unfold stepSinkDone
  cases s.inFlight with
  | nil => simp
  | cons p rest =>
    cases err <;> dsimp only <;> split_ifs <;>
      simp [reportError_writtenLength]

/-! ### The scratch write buffer -/

theorem scratchWriteBytes_length (enc : Nat → List Nat) :
    ∀ (s : List Nat) (cap : Nat),
      (scratchWriteBytes enc cap s).length = scratchWriteLen enc cap s := by
  intro s
  induction s with
  | nil => intro cap; rfl
  | cons c rest ih =>
    intro cap
    unfold scratchWriteBytes scratchWriteLen
    dsimp only
    split_ifs with hf
    · simp [ih]
    · rfl

/-- If `buf.write` stayed at least 4 bytes clear of the capacity and every
character encodes to at most 4 bytes, nothing was truncated: the scratch
buffer holds the complete encoding. -/
theorem scratchWrite_complete (enc : Nat → List Nat) :
    ∀ (s : List Nat) (cap : Nat), (∀ c ∈ s, (enc c).length ≤ 4) →
      (scratchWriteLen enc cap s : Int) ≤ (cap : Int) - 4 →
      scratchWriteBytes enc cap s = encStr enc s := by
  intro s
  induction s with
  | nil =>
    intro cap h hle
    simp [scratchWriteBytes, encStr]
  | cons c rest ih =>
    intro cap h hle
    have hc4 : (enc c).length ≤ 4 := h c (by simp)
    by_cases hf : (enc c).length ≤ cap
    · unfold scratchWriteBytes
      dsimp only
      rw [if_pos hf]
      unfold scratchWriteLen at hle
      dsimp only at hle
      rw [if_pos hf] at hle
      rw [ih (cap - (enc c).length) (fun x hx => h x (List.mem_cons_of_mem _ hx)) ?_]
      · simp [encStr]
      · push_cast at hle ⊢
        omega
    · exfalso
      unfold scratchWriteLen at hle
      dsimp only at hle
      rw [if_neg hf] at hle
      push_cast at hle
      omega

/-! ### The claims -/

/-- The identity byte encoding (one byte per character), used in the
concrete scenarios. -/
def encId : Nat → List Nat := fun c => [c]

/-- Claim C1: for every schedule of `writeBulk` calls mixing text and
binary payloads, once the drain loop has emptied the queue, the
concatenation of the payloads handed to the sink equals the concatenation
of the submitted payloads (text taken via its byte encoding), in
submission order. -/
theorem fputs_drain_preserves_bytes (enc : Nat → List Nat) (ws hwm : Nat)
    (evs : List Ev)
    (h : (run enc evs (initSys ws hwm)).fp.datachunks = []) :
    logBytes enc (run enc evs (initSys ws hwm)).sinkLog = tracedBytes enc evs := by
  have hb := run_bytes enc evs (initSys ws hwm)
  rw [h] at hb
  simpa [initSys] using hb

def evsC1 : List Ev :=
  [Ev.write (Data.str [97, 98]), Ev.write (Data.buf [1, 2]),
   Ev.syncFire, Ev.sinkDone none]

/-- Witness for C1 on a concrete mixed text/binary schedule. -/
theorem fputs_drain_preserves_bytes_witness :
    (run encId evsC1 (initSys 10 10)).fp.datachunks = [] ∧
    logBytes encId (run encId evsC1 (initSys 10 10)).sinkLog
      = tracedBytes encId evsC1 :=
  ⟨by decide, fputs_drain_preserves_bytes encId 10 10 evsC1 (by decide)⟩

/-- Claim C2 (code evidence): `fputs` has no `return` statement, so it
yields `undefined` (`none`), discarding the backpressure boolean; on the
same fresh writer the underlying `write` call returns `true`
(the backlog 2 is under the high-water mark 102400), so the claimed
boolean exists but is not returned by `fputs`. -/
theorem fputs_returns_no_boolean :
    ((initFputs 102400 102400).fputs encId [97]).2 = none ∧
    ((initFputs 102400 102400).write encId (Data.str [97, 10])).2 = true := by
  constructor
  · rfl
  · decide

def evsC3 : List Ev :=
  [Ev.puts [97, 97, 97, 97], Ev.puts [98, 98, 98, 98],
   Ev.syncFire, Ev.sinkDone none]

/-- Claim C3: with `writesize = 20`, `writeLine("aaaa")` then
`writeLine("bbbb")` on a fresh idle writer (both before the scheduled
`_sync` timer fires, as in JS where the timer cannot preempt synchronous
code) results in the sink receiving exactly one write call whose payload
is the merged string `"aaaa\nbbbb\n"`. -/
theorem writeLine_merge_single_sink_call :
    (run encId evsC3 (initSys 20 20)).sinkLog
        = [Data.str [97, 97, 97, 97, 10, 98, 98, 98, 98, 10]] ∧
    (run encId evsC3 (initSys 20 20)).fp.datachunks = [] ∧
    (run encId evsC3 (initSys 20 20)).inFlight = [] := by
  decide

/-- Claim C4: with a sink that fails every write with error `e`, after one
`write` of nonempty data the first `fflush` parks on its snapshot, then
(once the failing sink write completes) fires with exactly that error and
clears the latch; a second `fflush` with no intervening writes completes
immediately with no error. -/
theorem failing_sink_fflush_error_once (enc : Nat → List Nat)
    (ws hwm e : Nat) (d : Data) (h : 0 < d.jsLen) :
    (stepWrite enc (initSys ws hwm) d).fp.fflushCall
        = FlushOutcome.waiting (d.jsLen : Int) 0 ∧
    (stepSinkDone (stepSync (stepWrite enc (initSys ws hwm) d)) (some e)).fp.errorState
        = some e ∧
    (stepSinkDone (stepSync (stepWrite enc (initSys ws hwm) d)) (some e)).fp.fflushPoll
        (d.jsLen : Int) 0
      = some
          ({ (stepSinkDone (stepSync (stepWrite enc (initSys ws hwm) d)) (some e)).fp
              with errorState := none }, some e) ∧
    ({ (stepSinkDone (stepSync (stepWrite enc (initSys ws hwm) d)) (some e)).fp
        with errorState := none } : Fputs).fflushCall
      = FlushOutcome.done
          { (stepSinkDone (stepSync (stepWrite enc (initSys ws hwm) d)) (some e)).fp
              with errorState := none } none := by
  cases d with
  | str s =>
    have hlen : 0 < s.length := h
    have e1 : stepWrite enc (initSys ws hwm) (Data.str s) =
        { fp := { writesize := ws, highWaterMark := hwm,
                  datachunks := [Chunk.text s],
                  unwrittenLength := (s.length : Int), writtenLength := 0,
                  resetCount := 0, syncing := true, errorState := none },
          scheduled := 1, inFlight := [], sinkLog := [] } := by
      simp [stepWrite, initSys, initFputs, Fputs.write, Fputs.mergeData,
        appendStr, Fputs.applyReset, Data.jsLen]
    rw [e1]
    have e2 : stepSync
        ({ fp := { writesize := ws, highWaterMark := hwm,
                   datachunks := [Chunk.text s],
                   unwrittenLength := (s.length : Int), writtenLength := 0,
                   resetCount := 0, syncing := true, errorState := none },
           scheduled := 1, inFlight := [], sinkLog := [] } : Sys) =
        { fp := { writesize := ws, highWaterMark := hwm, datachunks := [],
                  unwrittenLength := (s.length : Int), writtenLength := 0,
                  resetCount := 0, syncing := true, errorState := none },
          scheduled := 0, inFlight := [Data.str s], sinkLog := [Data.str s] } := by
      simp [stepSync, Chunk.materialize]
    rw [e2]
    have e3 : stepSinkDone
        ({ fp := { writesize := ws, highWaterMark := hwm, datachunks := [],
                   unwrittenLength := (s.length : Int), writtenLength := 0,
                   resetCount := 0, syncing := true, errorState := none },
           scheduled := 0, inFlight := [Data.str s], sinkLog := [Data.str s] } : Sys)
        (some e) =
        { fp := { writesize := ws, highWaterMark := hwm, datachunks := [],
                  unwrittenLength := (s.length : Int),
                  writtenLength := (s.length : Int),
                  resetCount := 0, syncing := false, errorState := some e },
          scheduled := 0, inFlight := [], sinkLog := [Data.str s] } := by
      simp [stepSinkDone, Fputs.reportError, Data.jsLen]
    rw [e3]
    refine ⟨?_, rfl, ?_, ?_⟩
    · have hcond : ¬ ((0 : Int) ≥ (s.length : Int)) := by omega
      simp [Fputs.fflushCall, Fputs.returnError, Data.jsLen, ge_iff_le, hcond]
    · simp [Fputs.fflushPoll, Fputs.returnError, Data.jsLen]
    · simp [Fputs.fflushCall, Fputs.returnError, Data.jsLen]
  | buf b =>
    have hlen : 0 < b.length := h
    have e1 : stepWrite enc (initSys ws hwm) (Data.buf b) =
        { fp := { writesize := ws, highWaterMark := hwm,
                  datachunks := [Chunk.bin b.length [b]],
                  unwrittenLength := (b.length : Int), writtenLength := 0,
                  resetCount := 0, syncing := true, errorState := none },
          scheduled := 1, inFlight := [], sinkLog := [] } := by
      simp [stepWrite, initSys, initFputs, Fputs.write, Fputs.mergeData,
        appendBuf, Fputs.applyReset, Data.jsLen]
    rw [e1]
    have e2 : stepSync
        ({ fp := { writesize := ws, highWaterMark := hwm,
                   datachunks := [Chunk.bin b.length [b]],
                   unwrittenLength := (b.length : Int), writtenLength := 0,
                   resetCount := 0, syncing := true, errorState := none },
           scheduled := 1, inFlight := [], sinkLog := [] } : Sys) =
        { fp := { writesize := ws, highWaterMark := hwm, datachunks := [],
                  unwrittenLength := (b.length : Int), writtenLength := 0,
                  resetCount := 0, syncing := true, errorState := none },
          scheduled := 0, inFlight := [Data.buf (b ++ [])],
          sinkLog := [Data.buf (b ++ [])] } := by
      simp [stepSync, Chunk.materialize]
    rw [e2]
    have e3 : stepSinkDone
        ({ fp := { writesize := ws, highWaterMark := hwm, datachunks := [],
                   unwrittenLength := (b.length : Int), writtenLength := 0,
                   resetCount := 0, syncing := true, errorState := none },
           scheduled := 0, inFlight := [Data.buf (b ++ [])],
           sinkLog := [Data.buf (b ++ [])] } : Sys) (some e) =
        { fp := { writesize := ws, highWaterMark := hwm, datachunks := [],
                  unwrittenLength := (b.length : Int),
                  writtenLength := (b.length : Int),
                  resetCount := 0, syncing := false, errorState := some e },
          scheduled := 0, inFlight := [], sinkLog := [Data.buf (b ++ [])] } := by
      simp [stepSinkDone, Fputs.reportError, Data.jsLen]
    rw [e3]
    refine ⟨?_, rfl, ?_, ?_⟩
    · have hcond : ¬ ((0 : Int) ≥ (b.length : Int)) := by omega
      simp [Fputs.fflushCall, Fputs.returnError, Data.jsLen, ge_iff_le, hcond]
    · simp [Fputs.fflushPoll, Fputs.returnError, Data.jsLen]
    · simp [Fputs.fflushCall, Fputs.returnError, Data.jsLen]

/-- Witness for C4 at a concrete failing sink and payload. -/
theorem failing_sink_fflush_error_once_witness :
    0 < (Data.str [100, 97, 116, 97]).jsLen ∧
    (stepWrite encId (initSys 102400 102400) (Data.str [100, 97, 116, 97])).fp.fflushCall
      = FlushOutcome.waiting 4 0 ∧
    (stepSinkDone (stepSync (stepWrite encId (initSys 102400 102400)
        (Data.str [100, 97, 116, 97]))) (some 7)).fp.errorState = some 7 := by
  have h := failing_sink_fflush_error_once encId 102400 102400 7
    (Data.str [100, 97, 116, 97]) (by decide)
  exact ⟨by decide, by simpa using h.1, h.2.1⟩

/-- Opening an existing file never reports ENOENT: it yields the existing
contents, truncates only under a `w` mode, or rejects an unknown mode. -/
theorem fsOpen_some_spec (mode c : List Nat) :
    fsOpen mode (some c) = .ok c ∨
    (mode.head? = some 119 ∧ fsOpen mode (some c) = .ok []) ∨
    fsOpen mode (some c) = .error .einval := by
  unfold fsOpen
  split_ifs with h114 h119 h97
  · left; rfl
  · right; left; exact ⟨h119, rfl⟩
  · left; simp
  · right; right; rfl

theorem reopenModeOf_head_ne (m : List Nat) :
    (reopenModeOf m).head? ≠ some 119 := by
  unfold reopenModeOf
  split_ifs with h1 h2
  · simp
  · simp
  · exact h1

/-- Claim C5: the first open uses the caller's mode unchanged; every
subsequent reopen of an existing file uses the downgraded mode, where
`"w"` becomes `"a"` and `"w+"` becomes `"a+"` and any mode not starting
with `w` is reused unchanged; and such a reopen leaves the file's
contents untouched (never truncates). -/
theorem reopen_mode_downgrade (m c : List Nat) (f0 : Option (List Nat)) :
    ((FileWriter.init m).reopenFd f0).modeUsed = m ∧
    (({ openmode := m, reopenmode := reopenModeOf m, isFirstOpen := false } :
        FileWriter).reopenFd (some c)).modeUsed = reopenModeOf m ∧
    (({ openmode := m, reopenmode := reopenModeOf m, isFirstOpen := false } :
        FileWriter).reopenFd (some c)).world = some c ∧
    reopenModeOf [119] = [97] ∧
    reopenModeOf [119, 43] = [97, 43] ∧
    (m.head? = some 119 ∨ reopenModeOf m = m) := by
  have hm1 : (FileWriter.init m).openModeNow = m := rfl
  have hm2 : ({ openmode := m, reopenmode := reopenModeOf m, isFirstOpen := false } : FileWriter).openModeNow = reopenModeOf m := rfl
  refine ⟨?_, ?_, ?_, by decide, by decide, ?_⟩
  · unfold FileWriter.reopenFd FileWriter.attemptOpen
    rw [hm1]
    cases hf : fsOpen m f0 with
    | ok c' => rfl
    | error e =>
      cases e
      · dsimp only
        rw [if_neg (by simp [FileWriter.init])]
      · rfl
  · unfold FileWriter.reopenFd FileWriter.attemptOpen
    rw [hm2]
    rcases fsOpen_some_spec (reopenModeOf m) c with hf | ⟨h119, hf⟩ | hf
    · rw [hf]
    · exact absurd h119 (reopenModeOf_head_ne m)
    · rw [hf]
  · unfold FileWriter.reopenFd FileWriter.attemptOpen
    rw [hm2]
    rcases fsOpen_some_spec (reopenModeOf m) c with hf | ⟨h119, hf⟩ | hf
    · rw [hf]
    · exact absurd h119 (reopenModeOf_head_ne m)
    · rw [hf]
  · unfold reopenModeOf
    by_cases h1 : m.head? = some 119
    · left; exact h1
    · right; rw [if_neg h1]

/-- Claim C6: when both `oldName` and `newName` exist, `renameFile` fails
with EEXIST from the create-exclusive probe, the world is left unchanged
(so `newName` keeps its prior contents and `oldName` is not renamed), and
no rename takes place before the error is reported. -/
theorem renameFile_target_exists_eexist (w : FsWorld) (oldN newN : Nat)
    (a b : List Nat) (h1 : fsLookup w oldN = some a)
    (h2 : fsLookup w newN = some b) :
    renameFile w oldN newN = (some RenameErr.eexist, w) ∧
    fsLookup (renameFile w oldN newN).2 newN = some b ∧
    fsLookup (renameFile w oldN newN).2 oldN = some a := by
  unfold renameFile
  rw [h1, h2]
  exact ⟨rfl, h2, h1⟩

/-- Witness for C6 on a concrete two-file world. -/
theorem renameFile_target_exists_eexist_witness :
    fsLookup [(0, [1]), (1, [2])] 0 = some [1] ∧
    fsLookup [(0, [1]), (1, [2])] 1 = some [2] ∧
    renameFile [(0, [1]), (1, [2])] 0 1
      = (some RenameErr.eexist, [(0, [1]), (1, [2])]) :=
  ⟨by decide, by decide,
    (renameFile_target_exists_eexist [(0, [1]), (1, [2])] 0 1 [1] [2]
      (by decide) (by decide)).1⟩

/-- Claim C7: on any reachable state, the reset step inside `write` fires
exactly when `writtenLength` is nonzero and has caught up with
`unwrittenLength`, incrementing `resetCount` by one; it always either
resets both counters to zero together or changes nothing; it never
changes the externally observed backlog `unwrittenLength -
writtenLength`; and no other operation (a `_sync` firing or a sink
callback) ever touches `resetCount`. -/
theorem counter_reset_epoch_conservation (enc : Nat → List Nat)
    (ws hwm : Nat) (evs : List Ev) (s : Sys) (d : Data) (err : Option Nat)
    (hs : s = run enc evs (initSys ws hwm)) :
    (s.fp.mergeData enc d).applyReset.resetCount
        = s.fp.resetCount
          + (if (s.fp.mergeData enc d).writtenLength ≠ 0 ∧
                (s.fp.mergeData enc d).writtenLength
                  ≥ (s.fp.mergeData enc d).unwrittenLength
             then 1 else 0) ∧
    (s.fp.mergeData enc d).applyReset.getUnwrittenLength
        = (s.fp.mergeData enc d).getUnwrittenLength ∧
    (((s.fp.mergeData enc d).applyReset.writtenLength = 0 ∧
      (s.fp.mergeData enc d).applyReset.unwrittenLength = 0) ∨
      (s.fp.mergeData enc d).applyReset = s.fp.mergeData enc d) ∧
    (step enc s Ev.syncFire).fp.resetCount = s.fp.resetCount ∧
    (step enc s (Ev.sinkDone err)).fp.resetCount = s.fp.resetCount := by
  have hI : SysInv s := hs ▸ sysInv_run enc ws hwm evs
  obtain ⟨h1, h2, h3, h4⟩ := hI
  have hsum := mergeData_sum enc s.fp d
  have hge := mergeData_ge enc s.fp d
  have hW := mergeData_writtenLength enc s.fp d
  have hrc := mergeData_resetCount enc s.fp d
  refine ⟨?_, ?_, ?_, stepSync_resetCount s, stepSinkDone_resetCount s err⟩
  · unfold Fputs.applyReset
    split_ifs with hc <;> simp [hrc]
  · unfold Fputs.applyReset Fputs.getUnwrittenLength
    split_ifs with hc
    · obtain ⟨hne, hle⟩ := hc
      dsimp only
      rw [hW] at hne hle
      push_cast at hsum h4 hge ⊢
      omega
    · rfl
  · unfold Fputs.applyReset
    split_ifs with hc
    · left; exact ⟨rfl, rfl⟩
    · right; rfl

def evsC7 : List Ev := [Ev.write (Data.str [97, 98]), Ev.syncFire, Ev.sinkDone none]

/-- Witness for C7: after fully draining one write, the next `write`'s
reset step fires, conserving the observed backlog while bumping the reset
epoch. -/
theorem counter_reset_epoch_conservation_witness :
    ((run encId evsC7 (initSys 10 10)).fp.mergeData encId (Data.str [99])).applyReset.getUnwrittenLength
        = ((run encId evsC7 (initSys 10 10)).fp.mergeData encId (Data.str [99])).getUnwrittenLength ∧
    ((run encId evsC7 (initSys 10 10)).fp.mergeData encId (Data.str [99])).applyReset.resetCount
        = (run encId evsC7 (initSys 10 10)).fp.resetCount + 1 := by
  have h := counter_reset_epoch_conservation encId 10 10 evsC7
    (run encId evsC7 (initSys 10 10)) (Data.str [99]) none rfl
  refine ⟨h.2.1, ?_⟩
  rw [h.1]
  decide

/-- Claim C8: in every reachable state the drain loop is single-flight:
`_syncing` is set exactly when one `_sync` timer invocation or one sink
write is outstanding, and never more than one sink write is outstanding
at a time. -/
theorem drain_loop_single_flight (enc : Nat → List Nat) (ws hwm : Nat)
    (evs : List Ev) :
    (run enc evs (initSys ws hwm)).scheduled
        + (run enc evs (initSys ws hwm)).inFlight.length
      = (if (run enc evs (initSys ws hwm)).fp.syncing then 1 else 0) ∧
    (run enc evs (initSys ws hwm)).inFlight.length ≤ 1 := by
  have h := (sysInv_run enc ws hwm evs).2.1
  refine ⟨h, ?_⟩
  rcases Bool.eq_false_or_eq_true (run enc evs (initSys ws hwm)).fp.syncing with
    hy | hy <;> rw [hy] at h
  · rw [if_pos rfl] at h
    omega
  · rw [if_neg (by simp)] at h
    omega

/-- The characters of a payload (empty for binary payloads, whose bytes
are written untouched). -/
def Data.chars : Data → List Nat
  | .str s => s
  | .buf _ => []

/-- Claim C9: `FileWriter.write` hands the filesystem exactly the full
byte encoding of every payload, for any scratch capacity; the shared
scratch buffer is used only when the encoding fits in it (characters
encode to at most 4 bytes each, as with UTF-8 from JS strings), and
otherwise a fresh buffer holding the complete encoding is used — buffer
reuse never truncates. -/
theorem filewriter_write_full_encoding (enc : Nat → List Nat) (cap : Nat)
    (d : Data) (h : ∀ c ∈ d.chars, (enc c).length ≤ 4) :
    (fwWriteBytes enc cap d).2 = d.bytes enc ∧
    ((fwWriteBytes enc cap d).1 = true → (d.bytes enc).length ≤ cap) := by
  cases d with
  | buf b => exact ⟨rfl, by simp [fwWriteBytes]⟩
  | str s =>
    simp only [Data.chars] at h
    unfold fwWriteBytes
    dsimp only
    split_ifs with hbig
    · exact ⟨rfl, by simp⟩
    · push_neg at hbig
      have hcomp := scratchWrite_complete enc s cap h hbig
      refine ⟨hcomp, fun _ => ?_⟩
      show (Data.bytes enc (Data.str s)).length ≤ cap
      have hlen : (Data.bytes enc (Data.str s)).length
          = scratchWriteLen enc cap s := by
        show (encStr enc s).length = _
        rw [← hcomp, scratchWriteBytes_length]
      rw [hlen]
      omega

/-- Witness for C9 at a concrete single-byte encoding and capacity. -/
theorem filewriter_write_full_encoding_witness :
    (∀ c ∈ (Data.str [1, 2, 3]).chars, (encId c).length ≤ 4) ∧
    (fwWriteBytes encId 100 (Data.str [1, 2, 3])).2
      = (Data.str [1, 2, 3]).bytes encId :=
  ⟨by decide,
    (filewriter_write_full_encoding encId 100 (Data.str [1, 2, 3]) (by decide)).1⟩

/-- Claim C10: the sink callback adds the delivered chunk's length to
`writtenLength` whether or not it reports an error; consequently, even
when every sink write fails with the same error, the drain runs to
completion — after `drainEvs` the backlog `unwrittenLength -
writtenLength` is zero, `drain` completes for any threshold, and `fflush`
completes — so a failing sink cannot make the backlog appear permanently
nonzero. -/
theorem sink_callback_counts_and_drain_terminates (enc : Nat → List Nat)
    (ws hwm : Nat) (evs : List Ev) (e : Nat) (maxU : Nat) (s : Sys)
    (hs : s = run enc evs (initSys ws hwm)) :
    (stepSinkDone s (some e)).fp.writtenLength
        = (stepSinkDone s none).fp.writtenLength ∧
    (stepSinkDone s (some e)).fp.writtenLength
        = s.fp.writtenLength + (((s.inFlight.head?.map Data.jsLen).getD 0 : Nat) : Int) ∧
    (run enc (drainEvs s e) s).fp.getUnwrittenLength = 0 ∧
    ((run enc (drainEvs s e) s).fp.drainTry (maxU : Int)).isSome = true ∧
    (run enc (drainEvs s e) s).fp.fflushCall.isDone = true := by
  have hI : SysInv s := hs ▸ sysInv_run enc ws hwm evs
  have hem := drainEvs_empties enc e s hI
  have hI2 : SysInv (run enc (drainEvs s e) s) := sysInv_run_of enc _ s hI
  have hzero : (run enc (drainEvs s e) s).fp.getUnwrittenLength = 0 := by
    have h4 := hI2.2.2.2
    rw [hem.1, hem.2] at h4
    unfold Fputs.getUnwrittenLength
    simpa using h4
  refine ⟨?_, ?_, hzero, ?_, ?_⟩
  · rw [stepSinkDone_writtenLength, stepSinkDone_writtenLength]
  · rw [stepSinkDone_writtenLength]
  · unfold Fputs.drainTry
    split_ifs with he hle
    · rfl
    · rfl
    · exfalso
      unfold Fputs.getUnwrittenLength at hzero
      push_cast at hle
      omega
  · unfold Fputs.fflushCall
    split_ifs with he hle
    · rfl
    · rfl
    · exfalso
      unfold Fputs.getUnwrittenLength at hzero
      omega

def evsC10 : List Ev := [Ev.write (Data.str [97, 98, 99])]

/-- Witness for C10: a pending write drains to a zero backlog through an
always-failing sink. -/
theorem sink_callback_counts_and_drain_terminates_witness :
    (run encId (drainEvs (run encId evsC10 (initSys 10 10)) 5)
        (run encId evsC10 (initSys 10 10))).fp.getUnwrittenLength = 0 ∧
    ((run encId (drainEvs (run encId evsC10 (initSys 10 10)) 5)
        (run encId evsC10 (initSys 10 10))).fp.drainTry 0).isSome = true := by
  have h := sink_callback_counts_and_drain_terminates encId 10 10 evsC10 5 0
    (run encId evsC10 (initSys 10 10)) rfl
  exact ⟨h.2.2.1, h.2.2.2.1⟩

end QFputs
